import Mathlib

/-!
Shallow embedding of the trombi CouchDB client (src/trombi/client.py): the
document model, the bulk-result classifier, the paginator arithmetic, the
changes-feed stream decoder, and the client-side database-name check.
The source targets Python 2 (it uses xrange and old-style imports), so
integer division is floor division; it is modelled with Int.fdiv.
-/

namespace Trombi

/-- JSON-compatible values as produced by json.loads; objects keep their
fields as an ordered association list. -/
inductive JVal where
  | null
  | bool (b : Bool)
  | num (n : Int)
  | str (s : String)
  | arr (elems : List JVal)
  | obj (fields : List (String × JVal))

/-- Key lookup in a JSON object field list (python dict access d[k],
returning none where python raises KeyError). -/
def lookupField (fields : List (String × JVal)) (key : String) : Option JVal :=
  match fields with
  | [] => none
  | (k, v) :: rest => if k = key then some v else lookupField rest key

/-- Python truthiness of a JSON value, as used by the bare if tests in the
source (if self.id, if self.attachments, dict.get defaults and so on). -/
def truthy : JVal → Bool
  | .null => false
  | .bool b => b
  | .num n => decide (n ≠ 0)
  | .str s => !s.isEmpty
  | .arr xs => !xs.isEmpty
  | .obj fs => !fs.isEmpty

/-- dict.get(key, default) on a JSON value. A non-mapping value is treated
as having no keys; python would raise AttributeError there, a path none of
the modelled call sites takes on well-formed data. -/
def jvalGetD (v : JVal) (key : String) (dflt : JVal) : JVal :=
  match v with
  | .obj fields => (lookupField fields key).getD dflt
  | _ => dflt

/-- key.startswith applied to the reserved CouchDB marker, the underscore
(source lines 602 and 620). -/
def startsWithUnderscore (s : String) : Bool :=
  match s.data with
  | [] => false
  | c :: _ => c == '_'

/-! ## Changes-feed stream decoder (source lines 543-576) -/

/-- Cons a character onto the first piece of a split (helper for splitNL). -/
def consFirst (c : Char) : List (List Char) → List (List Char)
  | [] => [[c]]
  | l :: ls => (c :: l) :: ls

/-- text.split on the newline character, exactly as python str.split with a
separator behaves: there is always at least one piece, empty pieces are
kept, and the final piece is the text after the last newline. -/
def splitNL : List Char → List (List Char)
  | [] => [[]]
  | c :: rest => if c = '\n' then [] :: splitNL rest else consFirst c (splitNL rest)

/-- Prepend a fragment onto the first piece of a split (used to state how
splitNL acts on an appended text). -/
def glueFirst (x : List Char) : List (List Char) → List (List Char)
  | [] => [x]
  | l :: ls => (x ++ l) :: ls

/-- The piece chunks.pop() removes in the source: the last element of the
split (the empty list for an empty split, which never occurs). -/
def lastPart : List (List Char) → List Char
  | [] => []
  | [l] => l
  | _ :: l :: ls => lastPart (l :: ls)

/-- The whitespace characters python str.strip removes. -/
def isPySpace (c : Char) : Bool :=
  c == ' ' || c == '\t' || c == '\n' || c == '\r' || c == '\x0b' || c == '\x0c'

/-- A line that the decoder skips with `if not chunk.strip(): continue`:
every character is whitespace (so also the empty line). -/
def blankLine (l : List Char) : Bool := l.all isPySpace

/-- Decoding of a batch of completed lines (source lines 554-576): blank
lines are skipped, lines json.loads rejects are logged and skipped, and
each successfully parsed event is delivered in order. json.loads itself is
external library code, abstracted as the parse parameter. -/
def lineEvents {α : Type} (parse : List Char → Option α) (lines : List (List Char)) : List α :=
  lines.filterMap (fun l => if blankLine l then none else parse l)

/-- One _stream chunk delivery (source lines 545-552): append the chunk to
the accumulator, split on newline, keep the final (possibly incomplete)
piece as the new accumulator, and decode the completed lines. The
accumulator list always holds a single saved fragment, so it is modelled
as that fragment. -/
def streamChunk {α : Type} (parse : List Char → Option α) (buf chunk : List Char) :
    List Char × List α :=
  (lastPart (splitNL (buf ++ chunk)),
   lineEvents parse (splitNL (buf ++ chunk)).dropLast)

/-- Feeding a whole sequence of chunks through _stream, starting from the
accumulator buf: returns the final accumulator and every delivered event
in delivery order. -/
def streamFeed {α : Type} (parse : List Char → Option α) (buf : List Char) :
    List (List Char) → List Char × List α
  | [] => (buf, [])
  | c :: cs =>
    ((streamFeed parse (streamChunk parse buf c).1 cs).1,
     (streamChunk parse buf c).2 ++ (streamFeed parse (streamChunk parse buf c).1 cs).2)

/-- Stated from the claim wording: the suffix of a text that follows its
last newline character (the whole text when it has no newline). -/
def tailAfterLastNL : List Char → List Char
  | [] => []
  | c :: rest => if '\n' ∈ (c :: rest : List Char) then tailAfterLastNL rest else c :: rest

/-! ## ViewResult slice and Paginator (source lines 768-879) -/

/-- One row of a CouchDB view response as the paginator reads it: the
row[value] entry (key and doc are not consulted by get_page). -/
structure ViewRow where
  value : JVal

/-- The part of a successful ViewResult that Paginator.get_page consumes:
total_rows, offset and the row sequence (source lines 768-787). -/
structure PageResponse where
  total_rows : Int
  offset : Int
  rows : List ViewRow

/-- The absolute offset computed by get_page (source lines 837-840):
forward uses the reported offset, backward derives it from the total. -/
def pageOffset (limit : Int) (forward : Bool) (response : PageResponse) : Int :=
  if forward then response.offset else response.total_rows - response.offset - limit

/-- rows[i][...] access used for the page seeds: the _id key of a row
value. A non-mapping value would raise an uncaught TypeError in python;
that path is outside every modelled claim and is mapped to none here. -/
def rowValueId (v : JVal) : Option JVal :=
  match v with
  | .obj fields => lookupField fields "_id"
  | _ => none

/-- The start_doc_id and end_doc_id assignment (source lines 856-862):
both set from the first and last page row, or both None when an
IndexError (empty page) or KeyError (missing _id) is raised. -/
def pageSeeds (rows : List JVal) : Option JVal × Option JVal :=
  match rows.head?, rows.getLast? with
  | some v0, some v1 =>
    match rowValueId v0, rowValueId v1 with
    | some i0, some i1 => (some i0, some i1)
    | _, _ => (none, none)
  | _, _ => (none, none)

/-- The paginator fields populated by a successful get_page response
(source lines 842-862). -/
structure PaginatorState where
  count : Int
  start_index : Int
  end_index : Int
  num_pages : Int
  current_page : Int
  previous_page : Int
  next_page : Int
  rows : List JVal
  has_next : Bool
  has_previous : Bool
  page_range : List Int
  start_doc_id : Option JVal
  end_doc_id : Option JVal

/-- The success branch of get_page._really_callback (source lines 837-862),
with python 2 integer division modelled by Int.fdiv (it floors) and
xrange(1, num_pages + 1) modelled by the corresponding range list. -/
def get_page_success (limit : Int) (forward : Bool) (response : PageResponse) : PaginatorState :=
  let offset := pageOffset limit forward response
  let count := response.total_rows
  let num_pages := Int.fdiv count limit + 1
  let current_page := Int.fdiv offset limit + 1
  let rows :=
    if forward then response.rows.map (fun r => r.value)
    else (response.rows.map (fun r => r.value)).reverse
  { count := count
    start_index := offset
    end_index := response.offset + limit - 1
    num_pages := num_pages
    current_page := current_page
    previous_page := current_page - 1
    next_page := current_page + 1
    rows := rows
    has_next := decide (offset + limit < count)
    has_previous := decide (offset - limit ≥ 0)
    page_range := (List.range num_pages.toNat).map (fun i => (i : Int) + 1)
    start_doc_id := (pageSeeds rows).1
    end_doc_id := (pageSeeds rows).2 }

/-! ## Bulk result classifier (source lines 725-765) -/

/-- The membership test `if 'error' in line` on a per-item response entry. -/
def hasErrorField (line : List (String × JVal)) : Bool :=
  (lookupField line ("error")).isSome

/-- One entry of a BulkResult: a BulkError (error type, optional reason and
the raw entry) or a BulkObject wrapping the raw entry. -/
inductive BulkEntry where
  | errE (error_type : JVal) (reason : Option JVal) (raw : List (String × JVal))
  | objE (contents : List (String × JVal))

/-- Discriminator: is this entry an error entry. -/
def BulkEntry.isErr : BulkEntry → Bool
  | .errE _ _ _ => true
  | .objE _ => false

/-- Classification of one per-item entry (source lines 752-756 together
with BulkError.__init__ at 725-729). -/
def classifyBulkLine (line : List (String × JVal)) : BulkEntry :=
  if hasErrorField line then
    .errE ((lookupField line ("error")).getD .null) (lookupField line ("reason")) line
  else .objE line

/-- BulkResult.__init__ (source lines 749-756): walk the parsed response
entries in order, classifying each independently. -/
def bulkResultContent : List (List (String × JVal)) → List BulkEntry
  | [] => []
  | line :: rest => classifyBulkLine line :: bulkResultContent rest

/-! ## Document model (source lines 592-722) -/

/-- The Document entity: user data mapping, the id / rev / attachments
attributes, and extra holding any other attribute the wire constructor
sets through setattr for a reserved-prefixed key. -/
structure Document where
  data : List (String × JVal)
  id : JVal
  rev : JVal
  attachments : JVal
  extra : List (String × JVal)

/-- The attribute state Document.__init__ establishes before consuming the
wire data (source lines 593-599): no id, no rev, empty attachment map. -/
def emptyDocument : Document :=
  { data := [], id := .null, rev := .null, attachments := .obj [], extra := [] }

/-- Python dict assignment d[k] = v on an ordered mapping: overwrite in
place when the key exists, append otherwise. -/
def assocSet (m : List (String × JVal)) (key : String) (v : JVal) : List (String × JVal) :=
  match m with
  | [] => [(key, v)]
  | (k, w) :: rest => if k = key then (k, v) :: rest else (k, w) :: assocSet rest key v

/-- dict.update: assign every entry of adds into m, in order. -/
def dictUpdate (m adds : List (String × JVal)) : List (String × JVal) :=
  adds.foldl (fun acc kv => assocSet acc kv.1 kv.2) m

/-- One iteration of the Document.__init__ loop (source lines 601-605): a
reserved-prefixed key is stored as the attribute named by the key without
its first character, any other key goes through item assignment. -/
def initStep (d : Document) (kv : String × JVal) : Document :=
  if startsWithUnderscore kv.1 then
    if kv.1.drop 1 = "id" then { d with id := kv.2 }
    else if kv.1.drop 1 = "rev" then { d with rev := kv.2 }
    else if kv.1.drop 1 = "attachments" then { d with attachments := kv.2 }
    else { d with extra := assocSet d.extra (kv.1.drop 1) kv.2 }
  else
    { d with data := assocSet d.data kv.1 kv.2 }

/-- Document construction from wire data (the fromWire direction). -/
def document_init (wire : List (String × JVal)) : Document :=
  wire.foldl initStep emptyDocument

/-- Document.raw (source lines 627-637, the toWire direction): reserved
metadata first, only when truthy, then the user data merged in. -/
def Document.raw (d : Document) : List (String × JVal) :=
  dictUpdate
    ((if truthy d.id then [("_id", d.id)] else []) ++
     (if truthy d.rev then [("_rev", d.rev)] else []) ++
     (if truthy d.attachments then [("_attachments", d.attachments)] else []))
    d.data

/-- Document.__setitem__ (source lines 619-622), modelled with explicit
state passing: the first component is the KeyError message when the call
raises (none on success), the second is the document after the call. The
raise happens before any mutation, so on the error path the document is
returned unchanged. -/
def document_setitem (d : Document) (key : String) (v : JVal) : Option String × Document :=
  if startsWithUnderscore key then
    (some ("Keys starting with underscore are reserved for CouchDB"), d)
  else (none, { d with data := assocSet d.data key v })

/-- A sample persisted document used by concrete witnesses. -/
def sampleDoc : Document :=
  { data := [("kind", .str ("paper")), ("pages", .num 12)]
    id := .str ("doc-1")
    rev := .str ("1-abc")
    attachments := .obj [("file", .obj [("stub", .bool true)])]
    extra := [] }

/-! ## HTTP outcome classification (source lines 127-139) -/

/-- The response a transport completion delivers: status code and body
(body text; code 599 is the tornado connection-failure sentinel). -/
structure HttpResponse where
  code : Int
  body : String

/-- A TrombiErrorResponse: errno classifier and message payload. -/
structure TrombiErr where
  errno : Int
  msg : JVal

/-- _error_response (source lines 127-139). json.loads is abstracted as the
parse parameter; a body that fails to parse is surfaced verbatim, a parsed
mapping yields its reason field, and a KeyError or TypeError while
extracting reason (missing key, or a non-mapping such as a list) falls
back to the whole parsed content. -/
def error_response (parse : String → Option JVal) (resp : HttpResponse) : TrombiErr :=
  if resp.code = 599 then { errno := 599, msg := .str ("Unable to connect to CouchDB") }
  else
    match parse resp.body with
    | none => { errno := resp.code, msg := .str resp.body }
    | some content =>
      match content with
      | .obj fields =>
        match lookupField fields ("reason") with
        | some r => { errno := resp.code, msg := r }
        | none => { errno := resp.code, msg := content }
      | _ => { errno := resp.code, msg := content }

/-! ## Document.load_attachment (source lines 690-709) -/

/-- What load_attachment decides to do before touching the network:
deliver inline data (base64-decoded; b64decode is stdlib code abstracted
as b64dec), or fall through to a fetch. A present non-stub entry without
a usable data field would raise an uncaught error in python, modelled as
the raising plan. -/
inductive LoadPlan where
  | inlineData (payload : String)
  | fetching
  | raising

/-- The branch at source lines 697-709. The hasattr guard is always true
after __init__ and is omitted. -/
def load_attachment_plan (b64dec : String → String)
    (attachments : List (String × JVal)) (name : String) : LoadPlan :=
  match lookupField attachments name with
  | some meta =>
    if truthy (jvalGetD meta ("stub") (.bool false)) then .fetching
    else
      match meta with
      | .obj fields =>
        match lookupField fields ("data") with
        | some (.str s) => .inlineData (b64dec s)
        | _ => .raising
      | _ => .raising
  | none => .fetching

/-- What the caller-supplied callback of load_attachment receives. The
absent constructor models callback(None), the absence signal used by
Database.get and Database.get_attachment. -/
inductive LoadOutcome where
  | delivered (payload : String)
  | errObj (e : TrombiErr)
  | absent

/-- Discriminator: is this outcome the absence signal. -/
def LoadOutcome.isAbsent : LoadOutcome → Bool
  | .absent => true
  | _ => false

/-- Discriminator: is this outcome an error object. -/
def LoadOutcome.isErrObj : LoadOutcome → Bool
  | .errObj _ => true
  | _ => false

/-- load_attachment._really_callback (source lines 691-695): 200 delivers
the body, every other status — including 404 — is classified through
_error_response. There is no 404-to-None branch here, unlike
Database.get_attachment at lines 390-398. -/
def load_attachment_fetch_cb (parse : String → Option JVal) (resp : HttpResponse) : LoadOutcome :=
  if resp.code = 200 then .delivered resp.body else .errObj (error_response parse resp)

/-! ## Server.create and Server.get database-name validation
     (source lines 163-226 and 882) -/

/-- One character of the VALID_DB_NAME character class: lowercase letter,
digit, underscore, dollar, parentheses, or the range from plus to slash
(plus, comma, minus, dot, slash). -/
def validDbChar (c : Char) : Bool :=
  (decide ('a' ≤ c) && decide (c ≤ 'z')) ||
  (decide ('0' ≤ c) && decide (c ≤ '9')) ||
  c == '_' || c == '$' || c == '(' || c == ')' ||
  (decide ('+' ≤ c) && decide (c ≤ '/'))

/-- The anchored body of VALID_DB_NAME: a lowercase letter followed by
valid characters. -/
def dbNameCore : List Char → Bool
  | [] => false
  | c :: rest => decide ('a' ≤ c) && decide (c ≤ 'z') && rest.all validDbChar

/-- re.match against VALID_DB_NAME (source line 882). The dollar anchor of
python re also matches just before a single trailing newline, which the
second disjunct reproduces. -/
def valid_db_name (s : String) : Bool :=
  dbNameCore s.data ||
  (match s.data.getLast? with
   | some c => (c == '\n') && dbNameCore s.data.dropLast
   | none => false)

/-- Modelled from the spec: the numeric classifier for the client-side
validation error. It comes from the external trombi errors module, which
is not under src; only its role as a fixed classifier matters here. -/
def INVALID_DATABASE_NAME : Int := 1000

/-- Modelled from the spec: the classifier for a precondition failure
(database already exists), from the external trombi errors module. -/
def PRECONDITION_FAILED : Int := 412

/-- Modelled from the spec: the classifier for a missing resource, from
the external trombi errors module. -/
def NOT_FOUND : Int := 404

/-- Server._invalid_db_name (source lines 163-167); the %r quoting of the
name is elided from the message text. -/
def invalid_db_name_err (name : String) : TrombiErr :=
  { errno := INVALID_DATABASE_NAME, msg := .str ("Invalid database name: " ++ name) }

/-- A value handed to a completion callback. -/
inductive CbVal where
  | errV (e : TrombiErr)
  | database (name : String)
  | plainObject

/-- A request handed to the transport collaborator. -/
structure RequestSpec where
  method : String
  dbname : String

/-- What a Server method does before any response arrives: the callback
invocations it makes synchronously, and the transport request it issues. -/
structure ServerCallEffects where
  pre_callbacks : List CbVal
  request : Option RequestSpec

/-- Server.create before the response (source lines 180-202): an invalid
name invokes the callback with the validation error, and — because the
source has no early return there, despite its own comment about avoiding
the HTTP query — the PUT request is issued unconditionally. -/
def server_create_effects (name : String) : ServerCallEffects :=
  { pre_callbacks :=
      if valid_db_name name then [] else [CbVal.errV (invalid_db_name_err name)]
    request := some { method := "PUT", dbname := name } }

/-- Server.create._create_callback (source lines 185-195). -/
def server_create_cb (parse : String → Option JVal) (name : String)
    (resp : HttpResponse) : CbVal :=
  if resp.code = 201 then .database name
  else if resp.code = 412 then
    .errV { errno := PRECONDITION_FAILED, msg := .str ("Database already exists: " ++ name) }
  else .errV (error_response parse resp)

/-- Every callback invocation Server.create makes for one request, in
order: the synchronous ones plus the one made when the response arrives. -/
def server_create_calls (parse : String → Option JVal) (name : String)
    (resp : HttpResponse) : List CbVal :=
  (server_create_effects name).pre_callbacks ++ [server_create_cb parse name resp]

/-- Server.get before the response (source lines 204-226): same missing
early return as create; the GET request is issued unconditionally. -/
def server_get_effects (name : String) : ServerCallEffects :=
  { pre_callbacks :=
      if valid_db_name name then [] else [CbVal.errV (invalid_db_name_err name)]
    request := some { method := "GET", dbname := name } }

/-- Server.get._really_callback with create=False (source lines 208-221). -/
def server_get_cb (parse : String → Option JVal) (name : String)
    (resp : HttpResponse) : CbVal :=
  if resp.code = 200 then .database name
  else if resp.code = 404 then
    .errV { errno := NOT_FOUND, msg := .str ("Database not found: " ++ name) }
  else .errV (error_response parse resp)

/-- Every callback invocation Server.get makes for one request, in order. -/
def server_get_calls (parse : String → Option JVal) (name : String)
    (resp : HttpResponse) : List CbVal :=
  (server_get_effects name).pre_callbacks ++ [server_get_cb parse name resp]

/-! ## Helper lemmas -/

/-- The floor property of python 2 integer division with a positive
divisor, for Int.fdiv. -/
theorem fdiv_floor_bounds (a b : Int) (h : 0 < b) :
    b * Int.fdiv a b ≤ a ∧ a < b * (Int.fdiv a b + 1) := by
  rw [Int.fdiv_eq_ediv a (le_of_lt h)]
  have h1 := Int.emod_add_ediv a b
  have h2 := Int.emod_nonneg a (by omega : b ≠ 0)
  have h3 := Int.emod_lt_of_pos a h
  have h4 : b * (a / b + 1) = b * (a / b) + b := by ring
  constructor
  · linarith
  · linarith

/-- Every branch of _error_response reports the response status as errno
(the 599 branch included, since it is taken only at status 599). -/
theorem error_response_errno (parse : String → Option JVal) (resp : HttpResponse) :
    (error_response parse resp).errno = resp.code := by
  rw [error_response]
  by_cases h599 : resp.code = 599
  · rw [if_pos h599]
    exact h599.symm
  · rw [if_neg h599]
    split
    · rfl
    · split
      · first
        | rfl
        | (split <;> rfl)
      · rfl

/-- bulkResultContent preserves length. -/
theorem bulkResultContent_length (result : List (List (String × JVal))) :
    (bulkResultContent result).length = result.length := by
  induction result with
  | nil => rfl
  | cons line rest ih => simp [bulkResultContent, ih]

/-- Index-wise view of bulkResultContent. -/
theorem bulkResultContent_getElem (result : List (List (String × JVal))) (i : Nat) :
    (bulkResultContent result)[i]? = (result[i]?).map classifyBulkLine := by
  induction result generalizing i with
  | nil => simp [bulkResultContent]
  | cons line rest ih =>
    cases i with
    | zero => simp [bulkResultContent]
    | succ j => simpa [bulkResultContent] using ih j

/-- An entry is an error entry exactly when its line has an error field. -/
theorem isErr_classifyBulkLine (line : List (String × JVal)) :
    (classifyBulkLine line).isErr = hasErrorField line := by
  rw [classifyBulkLine]
  split
  · next hp => simp [BulkEntry.isErr, hp]
  · next hp =>
    have hF : hasErrorField line = false := by
      cases hE : hasErrorField line
      · rfl
      · exact absurd hE hp
    simp [BulkEntry.isErr, hF]

/-! ## Claim theorems -/

/-- C1: for a successful Paginator page fetch with window offset
pageOffset, total count total_rows and positive limit, the derived
metadata satisfies current_page = floor(offset / limit) + 1,
num_pages = floor(count / limit) + 1, has_previous = (offset - limit ≥ 0)
and has_next = (offset + limit < count), the divisions being integer
floor divisions (the last two conjuncts pin Int.fdiv to the floor). -/
theorem paginator_page_math (limit : Int) (forward : Bool) (resp : PageResponse)
    (h : 0 < limit) :
    (get_page_success limit forward resp).current_page =
        Int.fdiv (pageOffset limit forward resp) limit + 1
    ∧ (get_page_success limit forward resp).num_pages =
        Int.fdiv resp.total_rows limit + 1
    ∧ ((get_page_success limit forward resp).has_previous = true ↔
        pageOffset limit forward resp - limit ≥ 0)
    ∧ ((get_page_success limit forward resp).has_next = true ↔
        pageOffset limit forward resp + limit < resp.total_rows)
    ∧ limit * Int.fdiv (pageOffset limit forward resp) limit ≤ pageOffset limit forward resp
    ∧ pageOffset limit forward resp < limit * (Int.fdiv (pageOffset limit forward resp) limit + 1) := by
  refine ⟨rfl, rfl, ?_, ?_, (fdiv_floor_bounds _ _ h).1, (fdiv_floor_bounds _ _ h).2⟩
  · simp [get_page_success]
  · simp [get_page_success]

/-- C1 witness at limit 10, forward, total 25, offset 10. -/
theorem paginator_page_math_w :
    (0 : Int) < 10
    ∧ ((get_page_success 10 true { total_rows := 25, offset := 10, rows := [] }).current_page =
          Int.fdiv (pageOffset 10 true { total_rows := 25, offset := 10, rows := [] }) 10 + 1
      ∧ (get_page_success 10 true { total_rows := 25, offset := 10, rows := [] }).num_pages =
          Int.fdiv (25 : Int) 10 + 1
      ∧ ((get_page_success 10 true { total_rows := 25, offset := 10, rows := [] }).has_previous = true ↔
          pageOffset 10 true { total_rows := 25, offset := 10, rows := [] } - 10 ≥ 0)
      ∧ ((get_page_success 10 true { total_rows := 25, offset := 10, rows := [] }).has_next = true ↔
          pageOffset 10 true { total_rows := 25, offset := 10, rows := [] } + 10 < 25)
      ∧ 10 * Int.fdiv (pageOffset 10 true { total_rows := 25, offset := 10, rows := [] }) 10 ≤
          pageOffset 10 true { total_rows := 25, offset := 10, rows := [] }
      ∧ pageOffset 10 true { total_rows := 25, offset := 10, rows := [] } <
          10 * (Int.fdiv (pageOffset 10 true { total_rows := 25, offset := 10, rows := [] }) 10 + 1)) :=
  ⟨by decide, paginator_page_math 10 true { total_rows := 25, offset := 10, rows := [] } (by decide)⟩

/-- C5 counterexample: in a backward fetch with limit 10, total 100 and
reported offset 20, the derived absolute offset is 70, yet end_index is
computed from the reported offset (20 + 10 - 1 = 29), not from the derived
offset (which would give 79); so not all derived metadata uses the derived
absolute offset. -/
theorem paginator_backward_end_index_cx :
    pageOffset 10 false { total_rows := 100, offset := 20, rows := [] } = 70
    ∧ (get_page_success 10 false { total_rows := 100, offset := 20, rows := [] }).end_index = 29
    ∧ ¬ ((get_page_success 10 false { total_rows := 100, offset := 20, rows := [] }).end_index =
          pageOffset 10 false { total_rows := 100, offset := 20, rows := [] } + 10 - 1) := by
  exact ⟨by decide, by decide, by decide⟩

/-- C5 amended: a successful backward fetch derives the absolute offset
total_rows - offset - limit and uses it for start_index, current_page,
has_next and has_previous, while end_index is always computed from the
reported offset as offset + limit - 1; the extracted row values are
reversed back to forward-natural order; a forward fetch uses the reported
offset directly and keeps row order. -/
theorem paginator_backward_amended (limit : Int) (resp : PageResponse) :
    (get_page_success limit false resp).start_index = resp.total_rows - resp.offset - limit
    ∧ (get_page_success limit false resp).current_page =
        Int.fdiv (resp.total_rows - resp.offset - limit) limit + 1
    ∧ (get_page_success limit false resp).has_next =
        decide (resp.total_rows - resp.offset - limit + limit < resp.total_rows)
    ∧ (get_page_success limit false resp).has_previous =
        decide (resp.total_rows - resp.offset - limit - limit ≥ 0)
    ∧ (get_page_success limit false resp).end_index = resp.offset + limit - 1
    ∧ (get_page_success limit false resp).rows = (resp.rows.map (fun r => r.value)).reverse
    ∧ (get_page_success limit true resp).start_index = resp.offset
    ∧ (get_page_success limit true resp).rows = resp.rows.map (fun r => r.value) :=
  ⟨rfl, rfl, rfl, rfl, rfl, rfl, rfl, rfl⟩

/-- C6: a successful page fetch over an empty view result (total 0, no
rows, reported offset 0) yields num_pages = 1, no next or previous page,
empty content and null seeds, in both directions; the python IndexError
on the empty row list is caught, modelled by the option-valued seeds. -/
theorem paginator_empty_result (limit : Int) (forward : Bool) (resp : PageResponse)
    (h1 : resp.total_rows = 0) (h2 : resp.rows = []) (h3 : resp.offset = 0)
    (h4 : 0 < limit) :
    (get_page_success limit forward resp).num_pages = 1
    ∧ (get_page_success limit forward resp).has_next = false
    ∧ (get_page_success limit forward resp).has_previous = false
    ∧ (get_page_success limit forward resp).rows = []
    ∧ (get_page_success limit forward resp).start_doc_id = none
    ∧ (get_page_success limit forward resp).end_doc_id = none := by
  cases forward <;>
    simp [get_page_success, pageOffset, pageSeeds, h1, h2, h3, Int.zero_fdiv,
      decide_eq_false_iff_not] <;>
    omega

/-- C6 witness at limit 10 on the empty response. -/
theorem paginator_empty_result_w :
    ({ total_rows := 0, offset := 0, rows := [] } : PageResponse).total_rows = 0
    ∧ ({ total_rows := 0, offset := 0, rows := [] } : PageResponse).rows = []
    ∧ ({ total_rows := 0, offset := 0, rows := [] } : PageResponse).offset = 0
    ∧ (0 : Int) < 10
    ∧ ((get_page_success 10 true { total_rows := 0, offset := 0, rows := [] }).num_pages = 1
      ∧ (get_page_success 10 true { total_rows := 0, offset := 0, rows := [] }).has_next = false
      ∧ (get_page_success 10 true { total_rows := 0, offset := 0, rows := [] }).has_previous = false
      ∧ (get_page_success 10 true { total_rows := 0, offset := 0, rows := [] }).rows = []
      ∧ (get_page_success 10 true { total_rows := 0, offset := 0, rows := [] }).start_doc_id = none
      ∧ (get_page_success 10 true { total_rows := 0, offset := 0, rows := [] }).end_doc_id = none) :=
  ⟨rfl, rfl, rfl, by decide,
    paginator_empty_result 10 true { total_rows := 0, offset := 0, rows := [] } rfl rfl rfl (by decide)⟩

/-- C7: for every parsed bulk response list, the BulkResult has the same
length, entry i is exactly the classification of response item i (so the
classification of an entry depends on no other item, and entry order is
submission order), and entry i is an error entry precisely when item i
carries an error field. -/
theorem bulk_result_classification (result : List (List (String × JVal))) (i : Nat) :
    (bulkResultContent result).length = result.length
    ∧ (bulkResultContent result)[i]? = (result[i]?).map classifyBulkLine
    ∧ ((bulkResultContent result)[i]?).map BulkEntry.isErr = (result[i]?).map hasErrorField := by
  refine ⟨bulkResultContent_length result, bulkResultContent_getElem result i, ?_⟩
  rw [bulkResultContent_getElem result i]
  cases result[i]? with
  | none => rfl
  | some line => simp [isErr_classifyBulkLine]

/-- C9: setting any key that starts with the reserved underscore prefix
fails with the KeyError message, and the document is returned unchanged
by the failed attempt. -/
theorem document_setitem_reserved (d : Document) (key : String) (v : JVal)
    (h : startsWithUnderscore key = true) :
    (document_setitem d key v).1 =
      some ("Keys starting with underscore are reserved for CouchDB")
    ∧ (document_setitem d key v).2 = d := by
  rw [document_setitem, if_pos h]
  exact ⟨rfl, rfl⟩

/-- C9 witness on the reserved key _rev. -/
theorem document_setitem_reserved_w :
    startsWithUnderscore ("_rev") = true
    ∧ ((document_setitem sampleDoc ("_rev") (.str ("9-z"))).1 =
        some ("Keys starting with underscore are reserved for CouchDB")
      ∧ (document_setitem sampleDoc ("_rev") (.str ("9-z"))).2 = sampleDoc) :=
  ⟨by decide, document_setitem_reserved sampleDoc ("_rev") (.str ("9-z")) (by decide)⟩

/-- C4: the claim says an invalid database name makes Server.create and
Server.get invoke the callback exactly once with a validation error and
issue no transport request. The source performs the callback with the
validation error but lacks the early return its own comment implies
(avoiding the HTTP query), so the request is still issued and the
callback runs a second time when the response arrives: two invocations
and a request, evaluated here at the invalid name Foo with a
connection-failure response. -/
theorem server_invalid_name_still_fetches :
    valid_db_name ("Foo") = false
    ∧ (server_create_effects ("Foo")).pre_callbacks =
        [CbVal.errV (invalid_db_name_err ("Foo"))]
    ∧ (server_create_effects ("Foo")).request = some { method := "PUT", dbname := "Foo" }
    ∧ server_create_calls (fun _ => none) ("Foo") { code := 599, body := "" } =
        [CbVal.errV (invalid_db_name_err ("Foo")),
         CbVal.errV { errno := 599, msg := .str ("Unable to connect to CouchDB") }]
    ∧ (server_get_effects ("Foo")).pre_callbacks =
        [CbVal.errV (invalid_db_name_err ("Foo"))]
    ∧ (server_get_effects ("Foo")).request = some { method := "GET", dbname := "Foo" }
    ∧ server_get_calls (fun _ => none) ("Foo") { code := 599, body := "" } =
        [CbVal.errV (invalid_db_name_err ("Foo")),
         CbVal.errV { errno := 599, msg := .str ("Unable to connect to CouchDB") }] :=
  ⟨rfl, rfl, rfl, rfl, rfl, rfl, rfl⟩

/-- C3 counterexample: with no inline attachment available, a not-found
fetch response makes load_attachment hand the callback an error object,
not the absence signal the claim requires. -/
theorem load_attachment_notfound_cx :
    load_attachment_plan (fun s => s) [] ("file") = LoadPlan.fetching
    ∧ (load_attachment_fetch_cb (fun _ => none) { code := 404, body := "missing" }).isErrObj = true
    ∧ (load_attachment_fetch_cb (fun _ => none) { code := 404, body := "missing" }).isAbsent = false
    ∧ load_attachment_fetch_cb (fun _ => none) { code := 404, body := "missing" } =
        LoadOutcome.errObj { errno := 404, msg := .str ("missing") } :=
  ⟨rfl, rfl, rfl, rfl⟩

/-- C3 amended: load_attachment returns the inline payload,
base64-decoded, when the attachment entry is present with a falsy stub
flag and carries inline data; with no such entry it performs a fetch, and
a not-found (or any other non-200) fetch response is surfaced to the
callback as an error object carrying that status code — never as the
null absence signal. -/
theorem load_attachment_amended (b64dec : String → String) (parse : String → Option JVal)
    (atts : List (String × JVal)) (name : String) (fields : List (String × JVal))
    (s : String) (atts2 : List (String × JVal)) (name2 : String) (resp : HttpResponse)
    (hmeta : lookupField atts name = some (.obj fields))
    (hstub : truthy (jvalGetD (.obj fields) ("stub") (.bool false)) = false)
    (hdata : lookupField fields ("data") = some (.str s))
    (hmiss : lookupField atts2 name2 = none)
    (hcode : resp.code ≠ 200) :
    load_attachment_plan b64dec atts name = LoadPlan.inlineData (b64dec s)
    ∧ load_attachment_plan b64dec atts2 name2 = LoadPlan.fetching
    ∧ load_attachment_fetch_cb parse resp = LoadOutcome.errObj (error_response parse resp)
    ∧ (error_response parse resp).errno = resp.code
    ∧ (load_attachment_fetch_cb parse resp).isAbsent = false := by
  have hplan : load_attachment_plan b64dec atts name = LoadPlan.inlineData (b64dec s) := by
    simp [load_attachment_plan, hmeta, hstub, hdata]
  have hcb : load_attachment_fetch_cb parse resp =
      LoadOutcome.errObj (error_response parse resp) := by
    rw [load_attachment_fetch_cb, if_neg hcode]
  refine ⟨hplan, ?_, hcb, error_response_errno parse resp, ?_⟩
  · simp [load_attachment_plan, hmiss]
  · rw [hcb]
    rfl

/-- C3 witness: a stored inline attachment is delivered decoded, a missing
one is fetched, and a 404 fetch outcome is an error object. -/
theorem load_attachment_amended_w :
    lookupField [("file", JVal.obj [("data", JVal.str ("aGk="))])] ("file") =
        some (.obj [("data", JVal.str ("aGk="))])
    ∧ truthy (jvalGetD (.obj [("data", JVal.str ("aGk="))]) ("stub") (.bool false)) = false
    ∧ lookupField [("data", JVal.str ("aGk="))] ("data") = some (.str ("aGk="))
    ∧ lookupField ([] : List (String × JVal)) ("file") = none
    ∧ ({ code := 404, body := "nf" } : HttpResponse).code ≠ 200
    ∧ (load_attachment_plan (fun s => s) [("file", JVal.obj [("data", JVal.str ("aGk="))])] ("file") =
          LoadPlan.inlineData ((fun s => s) ("aGk="))
      ∧ load_attachment_plan (fun s => s) [] ("file") = LoadPlan.fetching
      ∧ load_attachment_fetch_cb (fun _ => none) { code := 404, body := "nf" } =
          LoadOutcome.errObj (error_response (fun _ => none) { code := 404, body := "nf" })
      ∧ (error_response (fun _ => none) { code := 404, body := "nf" }).errno =
          ({ code := 404, body := "nf" } : HttpResponse).code
      ∧ (load_attachment_fetch_cb (fun _ => none) { code := 404, body := "nf" }).isAbsent = false) :=
  ⟨rfl, rfl, rfl, rfl, by decide,
    load_attachment_amended (fun s => s) (fun _ => none)
      [("file", JVal.obj [("data", JVal.str ("aGk="))])] ("file")
      [("data", JVal.str ("aGk="))] ("aGk=") [] ("file") { code := 404, body := "nf" }
      rfl rfl rfl rfl (by decide)⟩

/-! ## Stream decoder lemmas -/

/-- consFirst never yields an empty split. -/
theorem consFirst_ne_nil (c : Char) (ls : List (List Char)) : consFirst c ls ≠ [] := by
  cases ls <;> simp [consFirst]

/-- glueFirst never yields an empty split. -/
theorem glueFirst_ne_nil (x : List Char) (ls : List (List Char)) : glueFirst x ls ≠ [] := by
  cases ls <;> simp [glueFirst]

/-- splitNL always yields at least one piece, as python str.split does. -/
theorem splitNL_ne_nil (s : List Char) : splitNL s ≠ [] := by
  cases s with
  | nil => simp [splitNL]
  | cons c rest =>
    simp only [splitNL]
    by_cases hc : c = '\n'
    · simp [hc]
    · simp only [if_neg hc]
      exact consFirst_ne_nil c (splitNL rest)

/-- Equation: splitting text that starts with a newline. -/
theorem splitNL_cons_nl (rest : List Char) : splitNL ('\n' :: rest) = [] :: splitNL rest := by
  simp [splitNL]

/-- Equation: splitting text that starts with an ordinary character. -/
theorem splitNL_cons_ch (c : Char) (rest : List Char) (hc : ¬ c = '\n') :
    splitNL (c :: rest) = consFirst c (splitNL rest) := by
  simp [splitNL, hc]

/-- lastPart skips a head when a tail remains. -/
theorem lastPart_cons (l : List Char) (ls : List (List Char)) (h : ls ≠ []) :
    lastPart (l :: ls) = lastPart ls := by
  cases ls with
  | nil => exact absurd rfl h
  | cons l2 ls2 => rfl

/-- lastPart of an append with nonempty right part. -/
theorem lastPart_append (A B : List (List Char)) (h : B ≠ []) :
    lastPart (A ++ B) = lastPart B := by
  induction A with
  | nil => rfl
  | cons a A2 ih =>
    rw [List.cons_append, lastPart_cons a (A2 ++ B) ?_, ih]
    intro hE
    rw [List.append_eq_nil] at hE
    exact h hE.2

/-- A text with no newline splits into itself alone. -/
theorem splitNL_single (s : List Char) (h : '\n' ∉ s) : splitNL s = [s] := by
  induction s with
  | nil => rfl
  | cons c rest ih =>
    have hc : ¬ c = '\n' := by
      intro e
      exact h (by rw [e]; exact List.mem_cons_self _ _)
    have hr : '\n' ∉ rest := fun m => h (List.mem_cons_of_mem _ m)
    simp only [splitNL, if_neg hc, ih hr, consFirst]

/-- A text containing a newline splits into at least two pieces. -/
theorem splitNL_len2 (s : List Char) (h : '\n' ∈ s) : 2 ≤ (splitNL s).length := by
  induction s with
  | nil => simp at h
  | cons c rest ih =>
    by_cases hc : c = '\n'
    · simp only [splitNL, if_pos hc, List.length_cons]
      have h2 : 0 < (splitNL rest).length := List.length_pos.mpr (splitNL_ne_nil rest)
      omega
    · have hr : '\n' ∈ rest := by
        rcases List.mem_cons.mp h with h0 | h0
        · exact absurd h0.symm hc
        · exact h0
      simp only [splitNL, if_neg hc]
      rcases hS : splitNL rest with _ | ⟨l, ls⟩
      · exact absurd hS (splitNL_ne_nil rest)
      · have h2 := ih hr
        rw [hS] at h2
        simp only [consFirst, List.length_cons] at h2 ⊢
        omega

/-- The suffix after the last newline contains no newline. -/
theorem tailAfterLastNL_no_nl (s : List Char) : '\n' ∉ tailAfterLastNL s := by
  induction s with
  | nil => simp [tailAfterLastNL]
  | cons c rest ih =>
    simp only [tailAfterLastNL]
    split
    · exact ih
    · next h => exact h

/-- The last split piece is exactly the suffix after the last newline. -/
theorem lastPart_splitNL (s : List Char) : lastPart (splitNL s) = tailAfterLastNL s := by
  induction s with
  | nil => rfl
  | cons c rest ih =>
    by_cases hmem : '\n' ∈ (c :: rest : List Char)
    · rw [show tailAfterLastNL (c :: rest) = tailAfterLastNL rest from by
        simp only [tailAfterLastNL, if_pos hmem]]
      by_cases hc : c = '\n'
      · simp only [splitNL, if_pos hc]
        rw [lastPart_cons _ _ (splitNL_ne_nil rest), ih]
      · have hr : '\n' ∈ rest := by
          rcases List.mem_cons.mp hmem with h0 | h0
          · exact absurd h0.symm hc
          · exact h0
        simp only [splitNL, if_neg hc]
        rcases hS : splitNL rest with _ | ⟨l, ls⟩
        · exact absurd hS (splitNL_ne_nil rest)
        · have hlen := splitNL_len2 rest hr
          rw [hS] at hlen
          have hls : ls ≠ [] := by
            cases ls with
            | nil => simp at hlen
            | cons x xs => simp
          have hih := ih
          rw [hS, lastPart_cons _ _ hls] at hih
          simp only [consFirst]
          rw [lastPart_cons _ _ hls]
          exact hih
    · rw [splitNL_single (c :: rest) hmem]
      simp only [tailAfterLastNL, if_neg hmem]
      rfl

/-- How splitNL acts on appended text: the left split loses its last
piece, which is glued onto the first piece of the right split. -/
theorem splitNL_append (s t : List Char) :
    splitNL (s ++ t) =
      (splitNL s).dropLast ++ glueFirst (lastPart (splitNL s)) (splitNL t) := by
  induction s with
  | nil =>
    rcases hT : splitNL t with _ | ⟨m, ms⟩
    · exact absurd hT (splitNL_ne_nil t)
    · rw [List.nil_append, hT]
      simp [splitNL, glueFirst, lastPart]
  | cons c s2 ih =>
    by_cases hc : c = '\n'
    · subst hc
      rw [List.cons_append, splitNL_cons_nl, splitNL_cons_nl]
      rw [ih, lastPart_cons _ _ (splitNL_ne_nil s2)]
      have hd : (([] : List Char) :: splitNL s2).dropLast = [] :: (splitNL s2).dropLast := by
        rw [show (([] : List Char) :: splitNL s2) = [[]] ++ splitNL s2 from rfl,
            List.dropLast_append_of_ne_nil _ (splitNL_ne_nil s2)]
        rfl
      rw [hd]
      simp
    · rw [List.cons_append, splitNL_cons_ch c _ hc, splitNL_cons_ch c _ hc]
      rw [ih]
      rcases hS : splitNL s2 with _ | ⟨l, ls⟩
      · exact absurd hS (splitNL_ne_nil s2)
      · rcases hT : splitNL t with _ | ⟨m, ms⟩
        · exact absurd hT (splitNL_ne_nil t)
        · cases ls with
          | nil => simp [consFirst, glueFirst, lastPart]
          | cons l2 ls2 =>
            simp [consFirst, glueFirst, lastPart, List.dropLast_cons₂]

/-- Prepending a newline-free fragment only extends the first piece. -/
theorem splitNL_no_nl_prefix (x t : List Char) (h : '\n' ∉ x) :
    splitNL (x ++ t) = glueFirst x (splitNL t) := by
  rw [splitNL_append, splitNL_single x h]
  simp [lastPart]

/-- lineEvents distributes over appended line batches. -/
theorem lineEvents_append {α : Type} (parse : List Char → Option α)
    (a b : List (List Char)) :
    lineEvents parse (a ++ b) = lineEvents parse a ++ lineEvents parse b := by
  simp [lineEvents, List.filterMap_append]

/-- Incremental feeding equals batch splitting: starting from a
newline-free accumulator, the final accumulator is the last piece of the
split of everything received, and the delivered events are the decoded
completed lines of everything received, in order. -/
theorem streamFeed_spec {α : Type} (parse : List Char → Option α) (cs : List (List Char)) :
    ∀ buf : List Char, '\n' ∉ buf →
      streamFeed parse buf cs =
        (lastPart (splitNL (buf ++ cs.flatten)),
         lineEvents parse (splitNL (buf ++ cs.flatten)).dropLast) := by
  induction cs with
  | nil =>
    intro buf hb
    rw [List.flatten_nil, List.append_nil, splitNL_single buf hb]
    simp [streamFeed, lastPart, lineEvents]
  | cons c cs2 ih =>
    intro buf hb
    have hb1 : '\n' ∉ lastPart (splitNL (buf ++ c)) := by
      rw [lastPart_splitNL]
      exact tailAfterLastNL_no_nl (buf ++ c)
    have hQ : splitNL (buf ++ (c :: cs2).flatten) =
        (splitNL (buf ++ c)).dropLast ++
          splitNL (lastPart (splitNL (buf ++ c)) ++ cs2.flatten) := by
      rw [List.flatten_cons, ← List.append_assoc, splitNL_append (buf ++ c) cs2.flatten,
          splitNL_no_nl_prefix _ _ hb1]
    simp only [streamFeed]
    rw [show (streamChunk parse buf c).1 = lastPart (splitNL (buf ++ c)) from rfl]
    rw [ih (lastPart (splitNL (buf ++ c))) hb1]
    rw [hQ, lastPart_append _ _ (splitNL_ne_nil _),
        List.dropLast_append_of_ne_nil _ (splitNL_ne_nil _),
        lineEvents_append]
    rfl

/-- The completed lines, each re-terminated with its newline, followed by
the trailing fragment, reconstitute the whole text: the completed lines
are exactly the newline-terminated segments. -/
theorem splitNL_reconstruct (s : List Char) :
    ((splitNL s).dropLast.map (fun l => l ++ ['\n'])).flatten ++ lastPart (splitNL s) = s := by
  induction s with
  | nil => rfl
  | cons c rest ih =>
    by_cases hc : c = '\n'
    · subst hc
      rw [splitNL_cons_nl]
      have hd : (([] : List Char) :: splitNL rest).dropLast = [] :: (splitNL rest).dropLast := by
        rw [show (([] : List Char) :: splitNL rest) = [[]] ++ splitNL rest from rfl,
            List.dropLast_append_of_ne_nil _ (splitNL_ne_nil rest)]
        rfl
      rw [hd, lastPart_cons _ _ (splitNL_ne_nil rest)]
      simp only [List.map_cons, List.nil_append, List.flatten_cons, List.cons_append]
      exact congrArg (List.cons '\n') ih
    · rw [splitNL_cons_ch c rest hc]
      rcases hS : splitNL rest with _ | ⟨l, ls⟩
      · exact absurd hS (splitNL_ne_nil rest)
      · rw [hS] at ih
        cases ls with
        | nil =>
          simp only [List.dropLast_single, List.map_nil, List.flatten_nil, List.nil_append,
            lastPart] at ih
          simp only [consFirst, List.dropLast_single, List.map_nil, List.flatten_nil,
            List.nil_append, lastPart]
          rw [ih]
        | cons l2 ls2 =>
          simp only [List.dropLast_cons₂, List.map_cons, List.flatten_cons, lastPart,
            List.cons_append, List.append_assoc] at ih
          simp only [consFirst, List.dropLast_cons₂, List.map_cons, List.flatten_cons,
            lastPart, List.cons_append, List.append_assoc]
          exact congrArg (List.cons c) ih

/-- C2: feeding any sequence of chunks through the stream decoder delivers
exactly the events decoded from the non-blank, parseable completed lines
of the concatenated text, in arrival order (first conjunct), where the
completed lines are exactly the newline-terminated segments of the text —
the trailing unterminated fragment contributes nothing (second conjunct);
blank and unparseable lines are skipped inside lineEvents and the decoder
is total, so nothing raises or aborts the stream. -/
theorem stream_events_exact {α : Type} (parse : List Char → Option α)
    (chunks : List (List Char)) :
    (streamFeed parse [] chunks).2 =
        lineEvents parse (splitNL chunks.flatten).dropLast
    ∧ ((splitNL chunks.flatten).dropLast.map (fun l => l ++ ['\n'])).flatten ++
        lastPart (splitNL chunks.flatten) = chunks.flatten := by
  constructor
  · rw [streamFeed_spec parse chunks [] (by simp)]
    rfl
  · exact splitNL_reconstruct chunks.flatten

/-- C10: after any sequence of chunk deliveries, the accumulator holds
exactly the suffix of all text received so far that follows the last
newline, and therefore never contains a newline itself. -/
theorem stream_buffer_suffix {α : Type} (parse : List Char → Option α)
    (chunks : List (List Char)) :
    (streamFeed parse [] chunks).1 = tailAfterLastNL chunks.flatten
    ∧ '\n' ∉ (streamFeed parse [] chunks).1 := by
  have h := streamFeed_spec parse chunks [] (by simp)
  have h1 : (streamFeed parse [] chunks).1 = tailAfterLastNL chunks.flatten := by
    rw [h]
    exact lastPart_splitNL chunks.flatten
  refine ⟨h1, ?_⟩
  rw [h1]
  exact tailAfterLastNL_no_nl chunks.flatten

/-! ## Document round-trip lemmas -/

/-- Assigning a fresh key into an ordered mapping appends it. -/
theorem assocSet_not_mem (m : List (String × JVal)) (key : String) (v : JVal)
    (h : ∀ kv ∈ m, kv.1 ≠ key) : assocSet m key v = m ++ [(key, v)] := by
  induction m with
  | nil => rfl
  | cons a rest ih =>
    obtain ⟨k, w⟩ := a
    have hk : k ≠ key := h (k, w) (List.mem_cons_self _ _)
    simp only [assocSet, if_neg hk, List.cons_append]
    rw [ih (fun kv hm => h kv (List.mem_cons_of_mem _ hm))]

/-- Updating a mapping with fresh, pairwise distinct keys appends them in
order. -/
theorem dictUpdate_append (adds : List (String × JVal)) :
    ∀ m : List (String × JVal),
      (∀ kv ∈ adds, ∀ kv2 ∈ m, kv.1 ≠ kv2.1) →
      (adds.map Prod.fst).Nodup →
      dictUpdate m adds = m ++ adds := by
  induction adds with
  | nil =>
    intro m _ _
    simp [dictUpdate]
  | cons a rest ih =>
    intro m hdisj hnodup
    have hnd : a.1 ∉ List.map Prod.fst rest ∧ (List.map Prod.fst rest).Nodup := by
      rw [List.map_cons] at hnodup
      exact List.nodup_cons.mp hnodup
    simp only [dictUpdate, List.foldl_cons]
    have hstep : assocSet m a.1 a.2 = m ++ [a] := by
      rw [assocSet_not_mem m a.1 a.2
        (fun kv2 h2 => (hdisj a (List.mem_cons_self _ _) kv2 h2).symm)]
    rw [hstep]
    have hdisj2 : ∀ kv ∈ rest, ∀ kv2 ∈ m ++ [a], kv.1 ≠ kv2.1 := by
      intro kv hkv kv2 hkv2
      rcases List.mem_append.mp hkv2 with h2 | h2
      · exact hdisj kv (List.mem_cons_of_mem _ hkv) kv2 h2
      · rw [List.mem_singleton.mp h2]
        intro he
        exact hnd.1 (he ▸ List.mem_map_of_mem Prod.fst hkv)
    have := ih (m ++ [a]) hdisj2 hnd.2
    rw [show List.foldl (fun acc kv => assocSet acc kv.1 kv.2) (m ++ [a]) rest =
          dictUpdate (m ++ [a]) rest from rfl, this]
    simp

/-- Folding the __init__ loop over entries with unreserved keys only
updates the data mapping, entry by entry. -/
theorem foldl_initStep_user (user : List (String × JVal)) :
    ∀ d0 : Document,
      (∀ kv ∈ user, startsWithUnderscore kv.1 = false) →
      List.foldl initStep d0 user = { d0 with data := dictUpdate d0.data user } := by
  induction user with
  | nil =>
    intro d0 _
    rfl
  | cons a rest ih =>
    intro d0 hu
    have ha := hu a (List.mem_cons_self _ _)
    simp only [List.foldl_cons]
    rw [show initStep d0 a = { d0 with data := assocSet d0.data a.1 a.2 } from by
      rw [initStep, if_neg (by simp [ha])]]
    rw [ih _ (fun kv hm => hu kv (List.mem_cons_of_mem _ hm))]
    rfl

/-- C8: for a document with truthy id and revision, a mapping-shaped
attachment attribute, and user keys that avoid the reserved underscore
prefix (pairwise distinct, as python dict keys are), rebuilding a
Document from its wire form restores the user mapping, the id, the
revision and the attachments unchanged. -/
theorem document_roundtrip (d : Document)
    (hid : truthy d.id = true) (hrev : truthy d.rev = true)
    (hatt : ∃ fs, d.attachments = JVal.obj fs)
    (hkeys : ∀ kv ∈ d.data, startsWithUnderscore kv.1 = false)
    (hnodup : (d.data.map Prod.fst).Nodup) :
    (document_init d.raw).data = d.data
    ∧ (document_init d.raw).id = d.id
    ∧ (document_init d.raw).rev = d.rev
    ∧ (document_init d.raw).attachments = d.attachments := by
  obtain ⟨fs, hfs⟩ := hatt
  have hne : ∀ r : String, startsWithUnderscore r = true → ∀ kv ∈ d.data, kv.1 ≠ r := by
    intro r hr kv hm he
    rw [← he, hkeys kv hm] at hr
    exact Bool.false_ne_true hr
  have hdata : dictUpdate ([] : List (String × JVal)) d.data = d.data := by
    rw [dictUpdate_append d.data [] (fun kv _ kv2 h2 => absurd h2 (List.not_mem_nil kv2))
        hnodup]
    rfl
  by_cases htr : truthy d.attachments = true
  · have hdisj : ∀ kv ∈ d.data, ∀ kv2 ∈
        ([("_id", d.id)] ++ [("_rev", d.rev)] ++ [("_attachments", d.attachments)] :
          List (String × JVal)), kv.1 ≠ kv2.1 := by
      intro kv hm kv2 h2
      simp only [List.mem_append, List.mem_singleton] at h2
      rcases h2 with (h2 | h2) | h2
      · rw [h2]
        exact hne ("_id") (by decide) kv hm
      · rw [h2]
        exact hne ("_rev") (by decide) kv hm
      · rw [h2]
        exact hne ("_attachments") (by decide) kv hm
    have hraw : d.raw =
        [("_id", d.id), ("_rev", d.rev), ("_attachments", d.attachments)] ++ d.data := by
      rw [Document.raw, if_pos hid, if_pos hrev, if_pos htr]
      rw [dictUpdate_append d.data _ hdisj hnodup]
      rfl
    have hinit : document_init
        ([("_id", d.id), ("_rev", d.rev), ("_attachments", d.attachments)] ++ d.data) =
        { data := dictUpdate [] d.data, id := d.id, rev := d.rev,
          attachments := d.attachments, extra := [] } := by
      rw [document_init, List.foldl_append]
      rw [show List.foldl initStep emptyDocument
            [("_id", d.id), ("_rev", d.rev), ("_attachments", d.attachments)] =
          ({ data := [], id := d.id, rev := d.rev, attachments := d.attachments,
             extra := [] } : Document) from rfl]
      rw [foldl_initStep_user d.data _ hkeys]
    refine ⟨?_, ?_, ?_, ?_⟩ <;> (rw [hraw, hinit]; try simp [hdata])
  · have htrf : truthy d.attachments = false := by
      cases hb : truthy d.attachments
      · rfl
      · exact absurd hb htr
    have hfs0 : d.attachments = JVal.obj [] := by
      rw [hfs] at htrf ⊢
      cases fs with
      | nil => rfl
      | cons a l => simp [truthy] at htrf
    have hdisj : ∀ kv ∈ d.data, ∀ kv2 ∈
        ([("_id", d.id)] ++ [("_rev", d.rev)] ++ ([] : List (String × JVal)) :
          List (String × JVal)), kv.1 ≠ kv2.1 := by
      intro kv hm kv2 h2
      simp only [List.mem_append, List.mem_singleton, List.not_mem_nil, or_false] at h2
      rcases h2 with h2 | h2
      · rw [h2]
        exact hne ("_id") (by decide) kv hm
      · rw [h2]
        exact hne ("_rev") (by decide) kv hm
    have hraw : d.raw = [("_id", d.id), ("_rev", d.rev)] ++ d.data := by
      rw [Document.raw, if_pos hid, if_pos hrev, if_neg (by simp [htrf])]
      rw [dictUpdate_append d.data _ hdisj hnodup]
      rfl
    have hinit : document_init ([("_id", d.id), ("_rev", d.rev)] ++ d.data) =
        { data := dictUpdate [] d.data, id := d.id, rev := d.rev,
          attachments := JVal.obj [], extra := [] } := by
      rw [document_init, List.foldl_append]
      rw [show List.foldl initStep emptyDocument [("_id", d.id), ("_rev", d.rev)] =
          ({ data := [], id := d.id, rev := d.rev, attachments := JVal.obj [],
             extra := [] } : Document) from rfl]
      rw [foldl_initStep_user d.data _ hkeys]
    refine ⟨?_, ?_, ?_, ?_⟩ <;> (rw [hraw, hinit]; try simp [hdata, hfs0])

/-- C8 witness on the sample persisted document. -/
theorem document_roundtrip_w :
    truthy sampleDoc.id = true
    ∧ truthy sampleDoc.rev = true
    ∧ sampleDoc.attachments = JVal.obj [("file", .obj [("stub", .bool true)])]
    ∧ (∀ kv ∈ sampleDoc.data, startsWithUnderscore kv.1 = false)
    ∧ (sampleDoc.data.map Prod.fst).Nodup
    ∧ ((document_init sampleDoc.raw).data = sampleDoc.data
      ∧ (document_init sampleDoc.raw).id = sampleDoc.id
      ∧ (document_init sampleDoc.raw).rev = sampleDoc.rev
      ∧ (document_init sampleDoc.raw).attachments = sampleDoc.attachments) :=
  ⟨by decide, by decide, rfl, by decide, by decide,
    document_roundtrip sampleDoc (by decide) (by decide)
      ⟨[("file", .obj [("stub", .bool true)])], rfl⟩ (by decide) (by decide)⟩

end Trombi
